import Mathlib

/-!
Shallow embedding of the criterion-relevant extraction and image-budgeting
subsystem of the ai-feedback-system repository
(`.github/scripts/image_utils.py`, `.github/scripts/section_extractor.py`,
`.github/scripts/ai_feedback_criterion.py`).

File-system reads and PIL image decoding are modelled by explicit
environments (`ImageEnv`, `EncodeEnv`); the PIL-available configuration
(`HAS_PIL = True`) is the one embedded, matching the lines the claims cite.
Python's `int(a * (m / b))` downscale arithmetic is modelled by exact
natural-number floor division `a * m / b`, and the float byte budget of the
payload optimizer by exact rationals.
-/

namespace AIF

/-- What the file system holds at an image path: nothing (`Path.exists()`
is false), an unreadable/undecodable file (`Image.open` raises), or a
decodable image with a pixel width and height. -/
inductive ImageFile : Type
  | missing : ImageFile
  | unreadable : ImageFile
  | img (width height : Nat) : ImageFile

/-- Abstraction of the file system as seen by `image_utils.py`. -/
abbrev ImageEnv := String → ImageFile

/-- `estimate_image_tokens` lines 195-201: optional `max_dimension`
downscale.  Python's `if max_dimension and (...)` treats `None` and `0`
as falsy, hence the `m ≠ 0` conjunct.  `int(img.height * (max_dimension /
img.width))` is floor division on the original dimensions. -/
def applyMaxDimension (maxDim : Option Nat) (w h : Nat) : Nat × Nat :=
  match maxDim with
  | none => (w, h)
  | some m =>
    if m ≠ 0 ∧ (w > m ∨ h > m) then
      if w > h then (m, h * m / w) else (w * m / h, m)
    else (w, h)

/-- `estimate_image_tokens` lines 204-210: scale to fit within 2048x2048
(the clamp runs on the possibly already-downscaled dimensions). -/
def clampTo2048 (w h : Nat) : Nat × Nat :=
  if w > 2048 ∨ h > 2048 then
    if w > h then (2048, h * 2048 / w) else (w * 2048 / h, 2048)
  else (w, h)

/-- The dimensions actually tiled: `max_dimension` downscale, then the
2048x2048 clamp. -/
def scaleDims (maxDim : Option Nat) (w h : Nat) : Nat × Nat :=
  let p := applyMaxDimension maxDim w h
  clampTo2048 p.1 p.2

/-- `estimate_image_tokens(image_path, max_dimension)` (image_utils.py
lines 167-225, `HAS_PIL` branch): 0 for a missing path, 500 when opening
the file raises, otherwise `85 + tiles_wide * tiles_high * 170` with
ceiling division by 512 on each scaled axis. -/
def estimate_image_tokens (env : ImageEnv) (path : String) (maxDim : Option Nat) : Nat :=
  match env path with
  | ImageFile.missing => 0
  | ImageFile.unreadable => 500
  | ImageFile.img w h =>
    let s := scaleDims maxDim w h
    let tilesWide := (s.1 + 511) / 512
    let tilesHigh := (s.2 + 511) / 512
    85 + tilesWide * tilesHigh * 170

/-- The loop of `filter_images_by_token_budget` (lines 244-256) with the
running `total_tokens` made explicit: select an image when the new total
stays within the budget, otherwise `break`. -/
def filterGo (env : ImageEnv) (maxTokens : Nat) (maxDim : Option Nat) :
    List String → Nat → List String × Nat
  | [], total => ([], total)
  | p :: rest, total =>
    let t := estimate_image_tokens env p maxDim
    if total + t ≤ maxTokens then
      let r := filterGo env maxTokens maxDim rest (total + t)
      (p :: r.1, r.2)
    else ([], total)

/-- `filter_images_by_token_budget(image_paths, max_tokens, max_dimension)`
(image_utils.py lines 228-256): returns the selected paths and the total
estimated tokens. -/
def filter_images_by_token_budget (env : ImageEnv) (paths : List String)
    (maxTokens : Nat) (maxDim : Option Nat) : List String × Nat :=
  filterGo env maxTokens maxDim paths 0

/-- Sum of the estimated token costs of a list of paths. -/
def sumTokens (env : ImageEnv) (maxDim : Option Nat) (paths : List String) : Nat :=
  (paths.map (fun p => estimate_image_tokens env p maxDim)).sum

/-- A concrete file system holding the five example images of the spec. -/
def sampleEnv : ImageEnv := fun p =>
  if p = "img512x512" then ImageFile.img 512 512
  else if p = "img1024x1024" then ImageFile.img 1024 1024
  else if p = "img2048x2048" then ImageFile.img 2048 2048
  else if p = "img512x1024" then ImageFile.img 512 1024
  else if p = "img1024x512" then ImageFile.img 1024 512
  else ImageFile.missing

/-- A file system on which every path is missing. -/
def envAllMissing : ImageEnv := fun _ => ImageFile.missing

/-- The token cost charged for a w x h image after all scaling:
`85 + tiles_wide * tiles_high * 170` with 512-pixel ceiling division. -/
def tileTokens (w h : Nat) : Nat :=
  85 + ((w + 511) / 512) * ((h + 511) / 512) * 170

/-- Abstraction of resizing an image and JPEG/base64 encoding it
(`optimize_images_for_payload`, inner loop lines 424-467): for a path, a
JPEG quality and a resolution step, either the length of the resulting
`data:image/jpeg;base64,...` string, or `none` when opening or converting
the image raises (the loop then does `continue`). -/
abbrev EncodeEnv := String → Nat → Nat → Option Nat

/-- One entry of the `optimization_steps` table. -/
structure OptStep : Type where
  quality : Nat
  resolution : Nat

/-- One record of the list returned by `optimize_images_for_payload`
(the base64 payload is abstracted to its length, `size_bytes`). -/
structure OptimizedImage : Type where
  path : String
  size_bytes : Nat
  resolution : Nat
  quality : Nat

/-- The fixed degradation table of `optimize_images_for_payload`
(lines 404-410), from least to most aggressive. -/
def optimization_steps (initRes : Nat) : List OptStep :=
  [⟨85, initRes⟩, ⟨75, initRes⟩, ⟨65, initRes⟩, ⟨65, 512⟩, ⟨65, 384⟩]

/-- Sum of the encoded sizes of a list of optimized images. -/
def sumSizes (l : List OptimizedImage) : Nat :=
  (l.map OptimizedImage.size_bytes).sum

/-- The image loop for one (quality, resolution) configuration
(lines 421-467): skip images that fail to encode, append an image while
the accumulated size stays within `avail`, and once an image does not fit
`break` if anything was already accepted, else keep scanning. -/
def tryConfigAux (enc : EncodeEnv) (q r : Nat) (avail : ℚ) :
    List String → List OptimizedImage → Nat → List OptimizedImage × Nat
  | [], acc, total => (acc.reverse, total)
  | p :: rest, acc, total =>
    match enc p q r with
    | none => tryConfigAux enc q r avail rest acc total
    | some sz =>
      if ((total + sz : Nat) : ℚ) ≤ avail then
        tryConfigAux enc q r avail rest (⟨p, sz, r, q⟩ :: acc) (total + sz)
      else
        match acc with
        | [] => tryConfigAux enc q r avail rest acc total
        | _ :: _ => (acc.reverse, total)

/-- The inner `for step in optimization_steps` loop (lines 416-482): a
configuration succeeds when every requested image was encoded within
budget. -/
def trySteps (enc : EncodeEnv) (avail : ℚ) (imagesToTry : List String) :
    List OptStep → Option (List OptimizedImage)
  | [] => none
  | s :: rest =>
    let r := tryConfigAux enc s.quality s.resolution avail imagesToTry [] 0
    if r.1.length = imagesToTry.length then some r.1
    else trySteps enc avail imagesToTry rest

/-- The outer `for drop_count in range(len(image_paths))` loop
(lines 413-414): try all images, then drop trailing images one at a
time. -/
def searchDrops (enc : EncodeEnv) (avail : ℚ) (paths : List String)
    (steps : List OptStep) : List Nat → Option (List OptimizedImage)
  | [] => none
  | d :: ds =>
    match trySteps enc avail (paths.take (paths.length - d)) steps with
    | some r => some r
    | none => searchDrops enc avail paths steps ds

/-- `optimize_images_for_payload(image_paths, text_size_bytes, config,
max_payload_mb)` (image_utils.py lines 360-486, `HAS_PIL` branch):
`available_bytes = max_payload_mb*1024*1024 - text_size_bytes - 10000`
(`JSON_OVERHEAD_BYTES`), first-fit over degradation steps and drop
counts; when nothing fits, the empty list is returned (a normal return,
not an error).  `initRes` is `config['vision']['resize_max_dimension']`
(default 768). -/
def optimize_images_for_payload (enc : EncodeEnv) (paths : List String)
    (textSize : Nat) (initRes : Nat) (maxPayloadMb : ℚ) : List OptimizedImage :=
  if paths.isEmpty then []
  else
    match searchDrops enc (maxPayloadMb * 1024 * 1024 - textSize - 10000) paths
        (optimization_steps initRes) (List.range paths.length) with
    | some r => r
    | none => []

/-! Embedding of `section_extractor.py`.  The regex
`\{\{<\s*embed\s+([^\s]+)\s*>\}\}` of `augment_with_notebook_outputs`
(line 86) and the per-reference substitution pattern of line 151 are
implemented directly over character lists, with Python `\s` modelled by
`Char.isWhitespace`.  The scanners carry a fuel argument equal to the
text length; every successful match consumes at least the three
characters of the opening brace sequence, so the fuel never runs out and
the functions agree with `re.findall` / `re.sub`. -/

/-- The literal opening of an embed shortcode. -/
def openChars : List Char := "\x7b\x7b<".data

/-- The literal `embed` keyword. -/
def embedChars : List Char := "embed".data

/-- The literal closing of an embed shortcode. -/
def closeChars : List Char := ">\x7d\x7d".data

/-- Match a literal character sequence at the head of the input, returning
the remainder. -/
def stripLit : List Char → List Char → Option (List Char)
  | [], l => some l
  | _ :: _, [] => none
  | a :: as, c :: cs => if a = c then stripLit as cs else none

/-- Greedy-with-backtracking match of `([^\s]+)\s*>\}\}`: `run` is the
maximal non-whitespace block, and the reference is its longest prefix
(tried longest first, as a regex engine does) after which optional
whitespace and the closing `>\}\}` match. -/
def refBacktrack (run rest0 : List Char) : Nat → Option (List Char × List Char)
  | 0 => none
  | k + 1 =>
    match stripLit closeChars ((run.drop (k + 1) ++ rest0).dropWhile Char.isWhitespace) with
    | some rem => some (run.take (k + 1), rem)
    | none => refBacktrack run rest0 k

/-- Match the embed pattern `\{\{<\s*embed\s+([^\s]+)\s*>\}\}` at the head
of the input; on success return the captured reference and the remainder
after the whole match. -/
def matchEmbedAt (l : List Char) : Option (List Char × List Char) :=
  match stripLit openChars l with
  | none => none
  | some l1 =>
    match stripLit embedChars (l1.dropWhile Char.isWhitespace) with
    | none => none
    | some l2 =>
      match l2 with
      | [] => none
      | c :: rest =>
        if c.isWhitespace then
          let l3 := rest.dropWhile Char.isWhitespace
          let run := l3.takeWhile (fun ch => ¬ ch.isWhitespace)
          let rest0 := l3.dropWhile (fun ch => ¬ ch.isWhitespace)
          refBacktrack run rest0 run.length
        else none

/-- `re.findall` for the embed pattern: scan left to right, on a match
record the captured reference and continue after the match. -/
def findEmbedsFuel : Nat → List Char → List (List Char)
  | 0, _ => []
  | _, [] => []
  | fuel + 1, c :: rest =>
    match matchEmbedAt (c :: rest) with
    | some (ref, rem) => ref :: findEmbedsFuel fuel rem
    | none => findEmbedsFuel fuel rest

/-- All embed references found in a character list. -/
def findEmbedsList (l : List Char) : List (List Char) := findEmbedsFuel l.length l

/-- All embed references found in a string (line 87 of
section_extractor.py). -/
def findEmbeds (s : String) : List String := (findEmbedsList s.data).map String.mk

/-- Match `\{\{<\s*embed\s+REF\s*>\}\}` for a literal (`re.escape`d)
reference at the head of the input; the references substituted are the
whitespace-free captures of `findEmbeds`, for which greedy whitespace
matching needs no backtracking.  On success return the remainder. -/
def matchRefTokenAt (ref : List Char) (l : List Char) : Option (List Char) :=
  match stripLit openChars l with
  | none => none
  | some l1 =>
    match stripLit embedChars (l1.dropWhile Char.isWhitespace) with
    | none => none
    | some l2 =>
      match l2 with
      | [] => none
      | c :: rest =>
        if c.isWhitespace then
          match stripLit ref (rest.dropWhile Char.isWhitespace) with
          | none => none
          | some l3 => stripLit closeChars (l3.dropWhile Char.isWhitespace)
        else none

/-- `re.sub` for one reference: replace every non-overlapping occurrence,
scanning left to right, never rescanning the inserted content. -/
def substFuel (ref content : List Char) : Nat → List Char → List Char
  | 0, l => l
  | _, [] => []
  | fuel + 1, c :: rest =>
    match matchRefTokenAt ref (c :: rest) with
    | some rem => content ++ substFuel ref content fuel rem
    | none => c :: substFuel ref content fuel rest

/-- The value computed by `re.sub(shortcode_pattern, content,
augmented_text)` (line 152) when the replacement content contains no
backslash — then `re.sub` splices it literally.  The general model,
including Python's replacement-template escape processing and its
`re.error` exception, is `substEmbed` below; `substEmbed_lit_agrees`
proves the two agree on backslash-free content. -/
def substEmbedLit (ref content s : String) : String :=
  String.mk (substFuel ref.data content.data s.data.length s.data)

/-- One item of a parsed `re.sub` replacement template: a literal
character, or a reference to the entire match (group 0, written
`\g<0>`). -/
inductive TmplItem : Type
  | lit (c : Char) : TmplItem
  | whole : TmplItem
deriving DecidableEq

/-- Numeric value of a digit character. -/
def octVal (c : Char) : Nat := c.toNat - 48

/-- `'0' ≤ c ≤ '7'`. -/
def isOctDigit (c : Char) : Bool := '0' ≤ c && c ≤ '7'

/-- Parse the `\g<name>` group-name suffix `name>` of a replacement
template.  The substitution pattern of line 151 has no capture groups,
so the only legal reference is group 0: a non-empty all-zero digit
string (`\g<0>`, `\g<00>`, ...); any other name or number, or a missing
`>`, raises `re.error` (`none`). -/
def parseGZeros : List Char → Option (List Char)
  | [] => none
  | c :: rest =>
    if c = '0' then
      match rest with
      | '>' :: rest2 => some rest2
      | _ => parseGZeros rest
    else none

/-- Handle one backslash escape of a replacement template (the input is
the text after the backslash), following Python `re`'s `parse_template`
specialized to the zero-group pattern of line 151: `\a \b \f \n \r \t \v
\\` become the escaped character, `\g<0>` the whole-match reference,
`\0` (plus up to two octal digits) and `\ooo` (three octal digits, value
at most 255) octal character escapes, a backslash before any other ASCII
letter or before a digit group reference raises `re.error` (`none`), a
backslash before any other character is kept literally with the
backslash, and a trailing lone backslash raises.  On success return the
items this escape contributes and the remaining text. -/
def parseEscape : List Char → Option (List TmplItem × List Char)
  | [] => none
  | e :: rest2 =>
    if e = 'g' then
      match rest2 with
      | '<' :: rest3 =>
        match parseGZeros rest3 with
        | some rest4 => some ([TmplItem.whole], rest4)
        | none => none
      | _ => none
    else if e = '0' then
      match rest2 with
      | d1 :: rest3 =>
        if isOctDigit d1 then
          match rest3 with
          | d2 :: rest4 =>
            if isOctDigit d2 then
              some ([TmplItem.lit (Char.ofNat (octVal d1 * 8 + octVal d2))], rest4)
            else some ([TmplItem.lit (Char.ofNat (octVal d1))], rest3)
          | [] => some ([TmplItem.lit (Char.ofNat (octVal d1))], rest3)
        else some ([TmplItem.lit (Char.ofNat 0)], rest2)
      | [] => some ([TmplItem.lit (Char.ofNat 0)], rest2)
    else if e.isDigit then
      match rest2 with
      | d2 :: rest3 =>
        if d2.isDigit then
          if isOctDigit e && isOctDigit d2 then
            match rest3 with
            | d3 :: rest4 =>
              if isOctDigit d3 then
                if octVal e * 64 + octVal d2 * 8 + octVal d3 > 255 then none
                else
                  some ([TmplItem.lit (Char.ofNat (octVal e * 64 + octVal d2 * 8 + octVal d3))],
                    rest4)
              else none
            | [] => none
          else none
        else none
      | [] => none
    else if e = 'a' then some ([TmplItem.lit (Char.ofNat 7)], rest2)
    else if e = 'b' then some ([TmplItem.lit (Char.ofNat 8)], rest2)
    else if e = 'f' then some ([TmplItem.lit (Char.ofNat 12)], rest2)
    else if e = 'n' then some ([TmplItem.lit '\n'], rest2)
    else if e = 'r' then some ([TmplItem.lit (Char.ofNat 13)], rest2)
    else if e = 't' then some ([TmplItem.lit '\t'], rest2)
    else if e = 'v' then some ([TmplItem.lit (Char.ofNat 11)], rest2)
    else if e = '\\' then some ([TmplItem.lit '\\'], rest2)
    else if e.isAlpha then none
    else some ([TmplItem.lit '\\', TmplItem.lit e], rest2)

/-- Python `re`'s `parse_template` loop over the replacement string:
ordinary characters are literals, a backslash starts an escape handled
by `parseEscape`.  The fuel starts at the template length and every step
consumes at least one character, so it never runs out. -/
def parseTemplateFuel : Nat → List Char → Option (List TmplItem)
  | _, [] => some []
  | 0, _ :: _ => none
  | fuel + 1, c :: rest =>
    if c = '\\' then
      match parseEscape rest with
      | none => none
      | some (items, rest2) => (items ++ ·) <$> parseTemplateFuel fuel rest2
    else (TmplItem.lit c :: ·) <$> parseTemplateFuel fuel rest

/-- Template parsing at full fuel (`re.sub` parses the template once per
call, before scanning, and raises on a bad template even when the
pattern never matches). -/
def parseTemplate (l : List Char) : Option (List TmplItem) :=
  parseTemplateFuel l.length l

/-- Expand a parsed template at one match: literals stand for themselves
and `whole` for the matched text. -/
def applyTmpl : List TmplItem → List Char → List Char
  | [], _ => []
  | TmplItem.lit c :: rest, m => c :: applyTmpl rest m
  | TmplItem.whole :: rest, m => m ++ applyTmpl rest m

/-- The `re.sub` scan with a parsed template: replace every
non-overlapping occurrence left to right, expanding the template at each
match with that match's text, never rescanning insertions. -/
def substTmplFuel (ref : List Char) (items : List TmplItem) :
    Nat → List Char → List Char
  | 0, l => l
  | _, [] => []
  | fuel + 1, c :: rest =>
    match matchRefTokenAt ref (c :: rest) with
    | some rem =>
        applyTmpl items ((c :: rest).take ((c :: rest).length - rem.length))
          ++ substTmplFuel ref items fuel rem
    | none => c :: substTmplFuel ref items fuel rest

/-- `re.sub(shortcode_pattern, content, augmented_text)` (line 152),
with Python's replacement-template semantics: `none` models the
`re.error` the call raises on a bad escape in `content` (e.g. a
backslash before an ordinary ASCII letter, as in latex output), and
otherwise the text with every occurrence replaced by the expanded
template. -/
def substEmbed (ref content s : String) : Option String :=
  match parseTemplate content.data with
  | none => none
  | some items => some (String.mk (substTmplFuel ref.data items s.data.length s.data))

/-- A canonical embed shortcode as a string, `\x7b\x7b< embed REF >\x7d\x7d`. -/
def embedToken (ref : String) : String := "\x7b\x7b< embed " ++ ref ++ " >\x7d\x7d"

/-- A notebook output record of the parsed report.  The four output lists
model the optional keys of the `outputs` dict; a missing key and an empty
list behave identically in the source (`'k' in outputs and outputs['k']`). -/
structure NotebookOutput : Type where
  embed : String
  cell_id : String
  html_as_markdown : List String
  markdown : List String
  text : List String
  latex : List String

/-- The parts of the parsed report that the extractor reads. -/
structure Report : Type where
  content : String
  notebook_outputs : List NotebookOutput

/-- The header line prepended to embedded output content
(`**[Embedded Output from {cell_id}]**`). -/
def embHeader (cellId : String) : String :=
  "\n**[Embedded Output from " ++ cellId ++ "]**\n\n"

/-- One `if 'k' in outputs and outputs['k']:` section of
`augment_with_notebook_outputs` (lines 110-134): when the block list is
non-empty, start with the header if nothing was accumulated yet, then
append each formatted block followed by a blank line. -/
def appendSection (t : String) (cellId : String) (blocks : List String)
    (fmt : String → String) : String :=
  match blocks with
  | [] => t
  | _ :: _ =>
    let t1 := if t = "" then embHeader cellId else t
    blocks.foldl (fun acc b => acc ++ fmt b ++ "\n\n") t1

/-- `cell_id.replace('_', ' ')`. -/
def underscoreToSpace (s : String) : String :=
  String.mk (s.data.map (fun c => if c = '_' then ' ' else c))

/-- Python `str.title()` on ASCII text: the first letter of every
alphabetic run is uppercased, the rest lowercased. -/
def titleAux : Bool → List Char → List Char
  | _, [] => []
  | prevAlpha, c :: rest =>
    if c.isAlpha then
      (if prevAlpha then c.toLower else c.toUpper) :: titleAux true rest
    else c :: titleAux false rest

/-- `cell_id.replace('_', ' ').title()` wrapper. -/
def pythonTitle (s : String) : String := String.mk (titleAux false s.data)

/-- The image-only placeholder (lines 139-141):
`\n**[Figure: {cell_label}]**\n`. -/
def figPlaceholder (cellId : String) : String :=
  "\n**[Figure: " ++ pythonTitle (underscoreToSpace cellId) ++ "]**\n"

/-- The `output_text` built for one notebook output (lines 107-141):
html tables first, then markdown blocks, then fenced text blocks, then
latex blocks, in that priority order; the figure placeholder when no
textual output exists. -/
def buildOutputText (nb : NotebookOutput) : String :=
  let t0 : String := ""
  let t1 := appendSection t0 nb.cell_id nb.html_as_markdown (fun b => b)
  let t2 := appendSection t1 nb.cell_id nb.markdown (fun b => b)
  let t3 := appendSection t2 nb.cell_id nb.text (fun b => "```\n" ++ b ++ "\n```")
  let t4 := appendSection t3 nb.cell_id nb.latex (fun b => b)
  if t4 = "" then figPlaceholder nb.cell_id else t4

/-- Python `str.strip()`: drop whitespace from both ends. -/
def pyStrip (s : String) : String :=
  String.mk (((s.data.dropWhile Char.isWhitespace).reverse.dropWhile
    Char.isWhitespace).reverse)

/-- Insert into an association list with Python-dict semantics: an
existing key keeps its position and gets the new value, a new key is
appended. -/
def insertReplace (k v : String) : List (String × String) → List (String × String)
  | [] => [(k, v)]
  | (k0, v0) :: rest =>
    if k0 = k then (k, v) :: rest else (k0, v0) :: insertReplace k v rest

/-- The `embed_replacements` dict (lines 98-144): for every notebook
output whose embed reference was found in the text, map the reference to
the stripped replacement content. -/
def buildReplacements (nbs : List NotebookOutput) (found : List String) :
    List (String × String) :=
  nbs.foldl
    (fun acc nb =>
      if nb.embed ∈ found then
        insertReplace nb.embed (pyStrip (buildOutputText nb)) acc
      else acc) []

/-- `augment_with_notebook_outputs(report, extracted_text)`
(section_extractor.py lines 72-157), on executions where no `re.error`
is raised — i.e. replacement contents free of backslash escapes, where
`re.sub` splices literally (`substEmbedLit`).  The exception-aware model
is `augment_with_notebook_outputs_exc` below. -/
def augment_with_notebook_outputs (report : Report) (extracted_text : String) : String :=
  match findEmbeds extracted_text with
  | [] => extracted_text
  | e :: es =>
    match report.notebook_outputs with
    | [] => extracted_text
    | n :: ns =>
      match buildReplacements (n :: ns) (e :: es) with
      | [] => extracted_text
      | r :: rs =>
        (r :: rs).foldl (fun acc kv => substEmbedLit kv.1 kv.2 acc) extracted_text

/-- `augment_with_notebook_outputs(report, extracted_text)`
(section_extractor.py lines 72-157) with the exception path explicit:
each `re.sub` of the loop at lines 149-152 parses its replacement
content as a template and raises `re.error` on a bad escape; the first
failing substitution aborts the function (`none`), which the caller does
not catch. -/
def augment_with_notebook_outputs_exc (report : Report) (extracted_text : String) :
    Option String :=
  match findEmbeds extracted_text with
  | [] => some extracted_text
  | e :: es =>
    match report.notebook_outputs with
    | [] => some extracted_text
    | n :: ns =>
      match buildReplacements (n :: ns) (e :: es) with
      | [] => some extracted_text
      | r :: rs =>
        (r :: rs).foldlM (fun acc kv => substEmbed kv.1 kv.2 acc) extracted_text

/-- A rubric criterion (the fields the extractor reads). -/
structure Criterion : Type where
  id : String
  name : String

/-- The `vision` section of the configuration. -/
structure VisionConfig : Type where
  enabled : Bool
  enabled_for_criteria : List String

/-- The per-criterion vision gate (lines 56-60): `'*'` in the enabled
list, or the criterion id, or the criterion name. -/
def vision_enabled_for (vc : VisionConfig) (c : Criterion) : Bool :=
  decide ("*" ∈ vc.enabled_for_criteria)
    || decide (c.id ∈ vc.enabled_for_criteria)
    || decide (c.name ∈ vc.enabled_for_criteria)

/-- Python slicing `s[:n]`: the first `n` characters. -/
def pySlice (s : String) (n : Nat) : String := String.mk (s.data.take n)

/-- `extract_sections_for_criterion_ai(report, criterion, config, model)`
(section_extractor.py lines 23-70).  The extraction LLM call
(`call_extraction_api`, including its retry loop) is abstracted by its
outcome `api`; `extract_relevant_images` is abstracted by `imgSel`
applied to the augmented extracted text. -/
def extract_sections_for_criterion_ai (report : Report) (criterion : Criterion)
    (vc : VisionConfig) (api : Except String String)
    (imgSel : String → List String) : String × List String :=
  let full_content := report.content
  let extracted0 :=
    if full_content.length < 500 then full_content
    else
      match api with
      | Except.ok t => t
      | Except.error _ => pySlice full_content 8000
  let extracted_text := augment_with_notebook_outputs report extracted0
  let image_paths :=
    if vc.enabled then
      if vision_enabled_for vc criterion then imgSel extracted_text else []
    else []
  (extracted_text, image_paths)

/-- A NotebookOutput whose only textual output is one fenced text block. -/
def nbFig1 : NotebookOutput := ⟨"fig1", "raw_data", [], [], ["42"], []⟩

/-- A report under 500 characters whose content contains an embed token
with a matching NotebookOutput. -/
def shortEmbedReport : Report := ⟨"See \x7b\x7b< embed fig1 >\x7d\x7d.", [nbFig1]⟩

/-- A report of 518 characters whose content starts with an embed token
with a matching NotebookOutput. -/
def longEmbedReport : Report :=
  ⟨"\x7b\x7b< embed fig1 >\x7d\x7d" ++ String.mk (List.replicate 500 'a'), [nbFig1]⟩

/-- A 500-character report without embed tokens or notebook outputs. -/
def plainLongReport : Report := ⟨String.mk (List.replicate 500 'a'), []⟩

/-- A tiny report without embed tokens or notebook outputs. -/
def tinyReport : Report := ⟨"tiny", []⟩

/-- The outcome of the grading API call of `analyze_criterion`
(`call_github_models_api` plus `json.loads`, ai_feedback_criterion.py
lines 382-411), abstracted to the parsed feedback content and the token
usage, or the message of the raised exception. -/
structure GradingOutcome : Type where
  feedback_json : String
  total_tokens : Nat

/-- The per-criterion result dict built by `analyze_criterion`
(lines 413-430). -/
structure CriterionResult : Type where
  criterion : String
  feedback : String
  success : Bool
  total_tokens : Nat

/-- `analyze_criterion(report, criterion, guidance, config, i)`
(ai_feedback_criterion.py lines 365-431): on success a successful result
with the feedback content; on any exception a failed result whose
feedback embeds the error message. -/
def analyze_criterion (call : Criterion → Except String GradingOutcome)
    (c : Criterion) : CriterionResult :=
  match call c with
  | Except.ok g => ⟨c.name, g.feedback_json, true, g.total_tokens⟩
  | Except.error e => ⟨c.name, "Error analyzing this criterion: " ++ e, false, 0⟩

/-- The loop of `main` (lines 450-452): one `analyze_criterion` result is
appended per rubric criterion, in rubric order. -/
def run_all_criteria (call : Criterion → Except String GradingOutcome)
    (criteria : List Criterion) : List CriterionResult :=
  criteria.map (analyze_criterion call)

/-- A grading call that fails on criterion id `c2` and succeeds
otherwise. -/
def callC8 : Criterion → Except String GradingOutcome :=
  fun c => if c.id = "c2" then Except.error "rate limited" else Except.ok ⟨"ok", 10⟩

/-- A two-criterion rubric. -/
def criteriaC8 : List Criterion := [⟨"c1", "Methodology"⟩, ⟨"c2", "Results"⟩]

lemma estimate_eq_tileTokens (env : ImageEnv) (p : String) (maxDim : Option Nat)
    (w h : Nat) (henv : env p = ImageFile.img w h) :
    estimate_image_tokens env p maxDim
      = tileTokens (scaleDims maxDim w h).1 (scaleDims maxDim w h).2 := by
  simp [estimate_image_tokens, henv, tileTokens]

lemma tileTokens_mono {w1 h1 w2 h2 : Nat} (hw : w1 ≤ w2) (hh : h1 ≤ h2) :
    tileTokens w1 h1 ≤ tileTokens w2 h2 := by
  unfold tileTokens
  have h1' : (w1 + 511) / 512 ≤ (w2 + 511) / 512 :=
    Nat.div_le_div_right (by omega)
  have h2' : (h1 + 511) / 512 ≤ (h2 + 511) / 512 :=
    Nat.div_le_div_right (by omega)
  exact Nat.add_le_add_left (Nat.mul_le_mul_right _ (Nat.mul_le_mul h1' h2')) _

lemma filterGo_isPrefix (env : ImageEnv) (maxT : Nat) (maxDim : Option Nat) :
    ∀ (l : List String) (total : Nat),
      (filterGo env maxT maxDim l total).1 <+: l := by
  intro l
  induction l with
  | nil => intro total; simp [filterGo]
  | cons p rest ih =>
    intro total
    simp only [filterGo]
    by_cases hle : total + estimate_image_tokens env p maxDim ≤ maxT
    · rw [if_pos hle]
      obtain ⟨tl, htl⟩ := ih (total + estimate_image_tokens env p maxDim)
      exact ⟨tl, by simp [htl]⟩
    · rw [if_neg hle]
      exact List.nil_prefix

lemma filterGo_total (env : ImageEnv) (maxT : Nat) (maxDim : Option Nat) :
    ∀ (l : List String) (total : Nat),
      (filterGo env maxT maxDim l total).2
        = total + sumTokens env maxDim (filterGo env maxT maxDim l total).1 := by
  intro l
  induction l with
  | nil => intro total; simp [filterGo, sumTokens]
  | cons p rest ih =>
    intro total
    simp only [filterGo]
    by_cases hle : total + estimate_image_tokens env p maxDim ≤ maxT
    · simp only [hle, if_true]
      have := ih (total + estimate_image_tokens env p maxDim)
      simp only [sumTokens, List.map_cons, List.sum_cons] at this ⊢
      omega
    · simp [hle, sumTokens]

lemma filterGo_le (env : ImageEnv) (maxT : Nat) (maxDim : Option Nat) :
    ∀ (l : List String) (total : Nat), total ≤ maxT →
      (filterGo env maxT maxDim l total).2 ≤ maxT := by
  intro l
  induction l with
  | nil => intro total ht; simpa [filterGo] using ht
  | cons p rest ih =>
    intro total ht
    simp only [filterGo]
    by_cases hle : total + estimate_image_tokens env p maxDim ≤ maxT
    · simpa [hle] using ih (total + estimate_image_tokens env p maxDim) hle
    · simpa [hle] using ht

lemma clampTo2048_small {w h : Nat} (hw : w ≤ 2048) (hh : h ≤ 2048) :
    clampTo2048 w h = (w, h) := by
  unfold clampTo2048
  rw [if_neg (by omega)]

lemma clampTo2048_wide {w h : Nat} (hw : 2048 < w) (hwh : w > h) :
    clampTo2048 w h = (2048, h * 2048 / w) := by
  unfold clampTo2048
  rw [if_pos (Or.inl hw), if_pos hwh]

lemma clampTo2048_tall {w h : Nat} (hh : 2048 < h) (hwh : ¬ w > h) :
    clampTo2048 w h = (w * 2048 / h, 2048) := by
  unfold clampTo2048
  rw [if_pos (Or.inr hh), if_neg hwh]

/-- Rescaling to a bound `m` and then to 2048 never beats rescaling to
2048 directly: `(a*m/b)*2048/m ≤ a*2048/b`. -/
lemma div_chain (a b m : Nat) (hm : 0 < m) (hb : 0 < b) :
    a * m / b * 2048 / m ≤ a * 2048 / b := by
  have h1 : a * m / b * 2048 ≤ a * m * 2048 / b := by
    rw [Nat.le_div_iff_mul_le hb]
    calc a * m / b * 2048 * b = a * m / b * b * 2048 := by ring
      _ ≤ a * m * 2048 := Nat.mul_le_mul_right _ (Nat.div_mul_le_self _ _)
  calc a * m / b * 2048 / m ≤ a * m * 2048 / b / m := Nat.div_le_div_right h1
    _ = a * m * 2048 / (b * m) := by rw [Nat.div_div_eq_div_mul]
    _ = a * 2048 * m / (b * m) := by rw [show a * m * 2048 = a * 2048 * m by ring]
    _ ≤ a * 2048 / b := by
        rw [Nat.mul_div_mul_right _ _ hm]

/-- Core of C9: the token count on the dimensions scaled with a
`maxDimension` bound never exceeds the one scaled without it. -/
lemma scaleDims_tokens_le (m w h : Nat) :
    tileTokens (scaleDims (some m) w h).1 (scaleDims (some m) w h).2
      ≤ tileTokens (scaleDims none w h).1 (scaleDims none w h).2 := by
  by_cases hres : m ≠ 0 ∧ (w > m ∨ h > m)
  case neg =>
    simp [scaleDims, applyMaxDimension, hres]
  case pos =>
    have hm : 0 < m := Nat.pos_of_ne_zero hres.1
    simp only [scaleDims, applyMaxDimension]
    rw [if_pos hres]
    by_cases hwh : w > h
    · rw [if_pos hwh]
      have hmw : m < w := by
        rcases hres.2 with h1 | h1
        · exact h1
        · omega
      have hwpos : 0 < w := by omega
      have hlt : h * m / w < m := by
        rw [Nat.div_lt_iff_lt_mul hwpos]
        calc h * m < w * m := mul_lt_mul_of_pos_right hwh hm
          _ = m * w := Nat.mul_comm _ _
      by_cases hm2048 : m ≤ 2048
      · rw [clampTo2048_small hm2048 (by omega)]
        by_cases hw2048 : w ≤ 2048
        · rw [clampTo2048_small hw2048 (by omega)]
          refine tileTokens_mono (le_of_lt hmw) ?_
          calc h * m / w ≤ h * w / w :=
                Nat.div_le_div_right (Nat.mul_le_mul_left h (le_of_lt hmw))
            _ = h := Nat.mul_div_cancel h hwpos
        · rw [clampTo2048_wide (by omega) hwh]
          exact tileTokens_mono hm2048
            (Nat.div_le_div_right (Nat.mul_le_mul_left h hm2048))
      · rw [clampTo2048_wide (by omega) hlt]
        rw [clampTo2048_wide (by omega) hwh]
        exact tileTokens_mono (Nat.le_refl 2048) (div_chain h w m hm hwpos)
    · rw [if_neg hwh]
      have hhm : m < h := by
        rcases hres.2 with h1 | h1
        · omega
        · exact h1
      have hhpos : 0 < h := by omega
      have hle2 : w * m / h ≤ m := by
        calc w * m / h ≤ h * m / h :=
              Nat.div_le_div_right (Nat.mul_le_mul_right m (by omega))
          _ = m * h / h := by rw [Nat.mul_comm]
          _ = m := Nat.mul_div_cancel m hhpos
      by_cases hm2048 : m ≤ 2048
      · rw [clampTo2048_small (by omega) hm2048]
        by_cases hh2048 : h ≤ 2048
        · rw [clampTo2048_small (by omega) hh2048]
          refine tileTokens_mono ?_ (le_of_lt hhm)
          calc w * m / h ≤ w * h / h :=
                Nat.div_le_div_right (Nat.mul_le_mul_left w (le_of_lt hhm))
            _ = w := Nat.mul_div_cancel w hhpos
        · rw [clampTo2048_tall (by omega) hwh]
          exact tileTokens_mono
            (Nat.div_le_div_right (Nat.mul_le_mul_left w hm2048)) hm2048
      · rw [clampTo2048_tall (by omega) (by omega : ¬ w * m / h > m)]
        rw [clampTo2048_tall (by omega) hwh]
        exact tileTokens_mono (div_chain w h m hm hhpos) (Nat.le_refl 2048)

/-- C1: for every image, the token estimate is exactly
`85 + ceil(w/512) * ceil(h/512) * 170` computed on the dimensions left by
the optional `maxDimension` downscale and the 2048x2048 clamp; in
particular 512x512 gives 255, 1024x1024 gives 765, 2048x2048 gives 2805,
and 512x1024 or 1024x512 give 425. -/
theorem c1_estimate_formula (env : ImageEnv) (p : String) (maxDim : Option Nat)
    (w h : Nat) (henv : env p = ImageFile.img w h) :
    estimate_image_tokens env p maxDim
      = 85 + ((scaleDims maxDim w h).1 + 511) / 512
          * (((scaleDims maxDim w h).2 + 511) / 512) * 170
    ∧ estimate_image_tokens sampleEnv "img512x512" none = 255
    ∧ estimate_image_tokens sampleEnv "img1024x1024" none = 765
    ∧ estimate_image_tokens sampleEnv "img2048x2048" none = 2805
    ∧ estimate_image_tokens sampleEnv "img512x1024" none = 425
    ∧ estimate_image_tokens sampleEnv "img1024x512" none = 425 := by
  refine ⟨?_, by decide, by decide, by decide, by decide, by decide⟩
  simpa [tileTokens] using estimate_eq_tileTokens env p maxDim w h henv

/-- Witness for C1 at a concrete 512x512 image. -/
theorem c1_estimate_formula_witness :
    estimate_image_tokens sampleEnv "img512x512" none
      = 85 + ((scaleDims none 512 512).1 + 511) / 512
          * (((scaleDims none 512 512).2 + 511) / 512) * 170 :=
  (c1_estimate_formula sampleEnv "img512x512" none 512 512 rfl).1

/-- C2 as stated is false: with a zero token budget, a nonexistent image
(cost 0) is still selected, so the selection is not empty. -/
theorem c2_zero_budget_counterexample :
    (filter_images_by_token_budget envAllMissing ["missing.png"] 0 none).1
      = ["missing.png"]
    ∧ (["missing.png"] : List String) ≠ [] := by
  constructor
  · rfl
  · simp

/-- C2 (amended): the selection is a greedy prefix of the input, its total
estimated tokens never exceed the budget and equal the sum over the
selected images, an empty input yields an empty selection with zero
tokens, a zero budget yields zero total tokens (the selection itself can
be non-empty when images have zero estimated cost), and the function is
deterministic. -/
theorem c2_budget_filter (env : ImageEnv) (paths : List String) (maxT : Nat)
    (maxDim : Option Nat) :
    (filter_images_by_token_budget env paths maxT maxDim).1 <+: paths
    ∧ (filter_images_by_token_budget env paths maxT maxDim).2
        = sumTokens env maxDim (filter_images_by_token_budget env paths maxT maxDim).1
    ∧ (filter_images_by_token_budget env paths maxT maxDim).2 ≤ maxT
    ∧ (paths = [] → filter_images_by_token_budget env paths maxT maxDim = ([], 0))
    ∧ (maxT = 0 → (filter_images_by_token_budget env paths maxT maxDim).2 = 0)
    ∧ filter_images_by_token_budget env paths maxT maxDim
        = filter_images_by_token_budget env paths maxT maxDim := by
  refine ⟨filterGo_isPrefix env maxT maxDim paths 0, ?_, ?_, ?_, ?_, rfl⟩
  · simpa using filterGo_total env maxT maxDim paths 0
  · exact filterGo_le env maxT maxDim paths 0 (Nat.zero_le _)
  · intro hp; subst hp; rfl
  · intro h0
    have h2 : (filter_images_by_token_budget env paths maxT maxDim).2 ≤ maxT :=
      filterGo_le env maxT maxDim paths 0 (Nat.zero_le _)
    omega

/-- Witness for C2 (amended) on a concrete two-image input. -/
theorem c2_budget_filter_witness :
    (filter_images_by_token_budget sampleEnv ["img512x512", "img1024x1024"] 300 none).1
      <+: ["img512x512", "img1024x1024"]
    ∧ (filter_images_by_token_budget sampleEnv ["img512x512", "img1024x1024"] 300 none).2
        ≤ 300 := by
  have h := c2_budget_filter sampleEnv ["img512x512", "img1024x1024"] 300 none
  exact ⟨h.1, h.2.2.1⟩

/-- C10: a path that does not exist on disk has estimated cost 0 (not an
error), so in `filter_images_by_token_budget` it is always selected
whenever the running total is still within the budget, including under a
zero budget. -/
theorem c10_missing_image_selected (env : ImageEnv) (p : String)
    (maxDim : Option Nat) (rest : List String) (total maxT : Nat)
    (h : env p = ImageFile.missing) (ht : total ≤ maxT) :
    estimate_image_tokens env p maxDim = 0
    ∧ (filterGo env maxT maxDim (p :: rest) total).1
        = p :: (filterGo env maxT maxDim rest total).1
    ∧ p ∈ (filter_images_by_token_budget env (p :: rest) maxT maxDim).1 := by
  have hz : estimate_image_tokens env p maxDim = 0 := by
    simp [estimate_image_tokens, h]
  refine ⟨hz, ?_, ?_⟩
  · simp [filterGo, hz, ht]
  · simp [filter_images_by_token_budget, filterGo, hz]

/-- Witness for C10: a missing image under a zero budget. -/
theorem c10_missing_image_selected_witness :
    estimate_image_tokens envAllMissing "missing.png" none = 0
    ∧ (filterGo envAllMissing 0 none ["missing.png"] 0).1
        = "missing.png" :: (filterGo envAllMissing 0 none [] 0).1
    ∧ "missing.png" ∈ (filter_images_by_token_budget envAllMissing ["missing.png"] 0 none).1 :=
  c10_missing_image_selected envAllMissing "missing.png" none [] 0 0 rfl (Nat.le_refl 0)

/-- C9: for every image, applying `maxDimension` never increases the
token estimate versus the unscaled estimate, and an image whose width and
height are both at most `maxDimension` is never upscaled: its dimensions,
and hence its estimate, are unchanged. -/
theorem c9_maxdim_never_increases (env : ImageEnv) (p : String) (m w h : Nat)
    (henv : env p = ImageFile.img w h) :
    estimate_image_tokens env p (some m) ≤ estimate_image_tokens env p none
    ∧ (w ≤ m → h ≤ m →
        applyMaxDimension (some m) w h = (w, h)
        ∧ estimate_image_tokens env p (some m) = estimate_image_tokens env p none) := by
  have e1 := estimate_eq_tileTokens env p (some m) w h henv
  have e2 := estimate_eq_tileTokens env p none w h henv
  constructor
  · rw [e1, e2]
    exact scaleDims_tokens_le m w h
  · intro hwm hhm
    have happ : applyMaxDimension (some m) w h = (w, h) := by
      have hno : ¬ (m ≠ 0 ∧ (w > m ∨ h > m)) := by
        rintro ⟨h1, h2⟩
        rcases h2 with h2 | h2 <;> omega
      simp [applyMaxDimension, hno]
    refine ⟨happ, ?_⟩
    rw [e1, e2]
    simp only [scaleDims]
    rw [happ]
    rfl

/-- Witness for C9 at a concrete 1024x1024 image with maxDimension 512. -/
theorem c9_maxdim_never_increases_witness :
    estimate_image_tokens sampleEnv "img1024x1024" (some 512)
      ≤ estimate_image_tokens sampleEnv "img1024x1024" none :=
  (c9_maxdim_never_increases sampleEnv "img1024x1024" 512 1024 1024 rfl).1

lemma sumSizes_reverse (l : List OptimizedImage) : sumSizes l.reverse = sumSizes l := by
  simp [sumSizes, List.sum_reverse]

lemma tryConfigAux_spec (enc : EncodeEnv) (q r : Nat) (avail : ℚ) :
    ∀ (l : List String) (acc : List OptimizedImage) (total : Nat),
      total = sumSizes acc →
      (tryConfigAux enc q r avail l acc total).2
          = sumSizes (tryConfigAux enc q r avail l acc total).1
        ∧ ((tryConfigAux enc q r avail l acc total).1 = acc.reverse
            ∨ (((tryConfigAux enc q r avail l acc total).2 : Nat) : ℚ) ≤ avail) := by
  intro l
  induction l with
  | nil =>
    intro acc total htot
    refine ⟨?_, Or.inl rfl⟩
    show total = sumSizes acc.reverse
    rw [sumSizes_reverse]
    exact htot
  | cons p rest ih =>
    intro acc total htot
    simp only [tryConfigAux]
    split
    · exact ih acc total htot
    · rename_i sz henc
      split
      · rename_i hfit
        have htot' : total + sz = sumSizes (⟨p, sz, r, q⟩ :: acc) := by
          simp only [sumSizes, List.map_cons, List.sum_cons] at htot ⊢
          omega
        have h := ih (⟨p, sz, r, q⟩ :: acc) (total + sz) htot'
        refine ⟨h.1, Or.inr ?_⟩
        rcases h.2 with heq | hle
        · rw [h.1, heq, sumSizes_reverse, ← htot']
          exact hfit
        · exact hle
      · rename_i hfit
        split
        · exact ih _ total htot
        · refine ⟨?_, Or.inl rfl⟩
          show total = sumSizes _
          rw [sumSizes_reverse]
          exact htot

lemma trySteps_spec (enc : EncodeEnv) (avail : ℚ) (imagesToTry : List String) :
    ∀ (steps : List OptStep) (res : List OptimizedImage),
      trySteps enc avail imagesToTry steps = some res →
      res = [] ∨ ((sumSizes res : Nat) : ℚ) ≤ avail := by
  intro steps
  induction steps with
  | nil => intro res h; simp [trySteps] at h
  | cons s rest ih =>
    intro res h
    simp only [trySteps] at h
    by_cases hlen : (tryConfigAux enc s.quality s.resolution avail imagesToTry [] 0).1.length
        = imagesToTry.length
    · rw [if_pos hlen] at h
      have hspec := tryConfigAux_spec enc s.quality s.resolution avail imagesToTry [] 0 (by simp [sumSizes])
      cases h
      rcases hspec.2 with heq | hle
      · exact Or.inl (by simpa using heq)
      · exact Or.inr (by rw [← hspec.1]; exact hle)
    · rw [if_neg hlen] at h
      exact ih res h

lemma searchDrops_spec (enc : EncodeEnv) (avail : ℚ) (paths : List String)
    (steps : List OptStep) :
    ∀ (ds : List Nat) (res : List OptimizedImage),
      searchDrops enc avail paths steps ds = some res →
      res = [] ∨ ((sumSizes res : Nat) : ℚ) ≤ avail := by
  intro ds
  induction ds with
  | nil => intro res h; simp [searchDrops] at h
  | cons d rest ih =>
    intro res h
    simp only [searchDrops] at h
    cases htry : trySteps enc avail (paths.take (paths.length - d)) steps with
    | none => rw [htry] at h; exact ih res h
    | some r =>
      rw [htry] at h
      have hr : r = res := by injection h
      subst hr
      exact trySteps_spec enc avail _ steps _ htry

/-- C3: `optimize_images_for_payload` returns either a list of encoded
images whose combined encoded sizes plus the text size plus the fixed
10000-byte JSON overhead stay within `maxPayloadMb` megabytes, or the
empty list (a normal return, used when no degradation step and drop
count combination fits). -/
theorem c3_payload_within_limit (enc : EncodeEnv) (paths : List String)
    (textSize initRes : Nat) (maxPayloadMb : ℚ) :
    optimize_images_for_payload enc paths textSize initRes maxPayloadMb = []
    ∨ ((sumSizes (optimize_images_for_payload enc paths textSize initRes maxPayloadMb) : Nat) : ℚ)
        + textSize + 10000 ≤ maxPayloadMb * 1024 * 1024 := by
  by_cases hp : paths.isEmpty
  · left
    simp [optimize_images_for_payload, hp]
  · unfold optimize_images_for_payload
    rw [if_neg hp]
    cases hsearch : searchDrops enc (maxPayloadMb * 1024 * 1024 - textSize - 10000) paths
        (optimization_steps initRes) (List.range paths.length) with
    | none => exact Or.inl rfl
    | some r =>
      rcases searchDrops_spec enc _ paths (optimization_steps initRes)
          (List.range paths.length) r hsearch with heq | hle
      · exact Or.inl heq
      · right
        linarith

lemma str_data_append (s t : String) : (s ++ t).data = s.data ++ t.data := rfl

lemma strEq_of_data {s t : String} (h : s.data = t.data) : s = t := by
  cases s
  cases t
  exact congrArg String.mk h

lemma str_append_ne_empty (s t : String) (h : s.data ≠ []) : s ++ t ≠ "" := by
  intro he
  have hd : (s ++ t).data = ([] : List Char) := congrArg String.data he
  rw [str_data_append] at hd
  exact h (List.append_eq_nil.mp hd).1

lemma mem_dropWhile_of_mem {c : Char} :
    ∀ {l : List Char}, c ∈ l → ¬ c.isWhitespace →
      c ∈ l.dropWhile Char.isWhitespace := by
  intro l
  induction l with
  | nil => intro hc _; cases hc
  | cons a rest ih =>
    intro hc hw
    by_cases ha : Char.isWhitespace a
    · rw [List.dropWhile_cons_of_pos ha]
      rcases List.mem_cons.mp hc with hca | hcr
      · exact absurd (hca ▸ ha) hw
      · exact ih hcr hw
    · rw [List.dropWhile_cons_of_neg ha]
      exact hc

lemma pyStrip_ne_empty {s : String} {c : Char} (hc : c ∈ s.data)
    (hw : ¬ c.isWhitespace) : pyStrip s ≠ "" := by
  intro h
  have hd : (((s.data.dropWhile Char.isWhitespace).reverse.dropWhile
      Char.isWhitespace).reverse) = ([] : List Char) := by
    simpa [pyStrip] using congrArg String.data h
  have h1 := mem_dropWhile_of_mem hc hw
  have h2 := List.mem_reverse.mpr h1
  have h3 := mem_dropWhile_of_mem h2 hw
  have h4 := List.mem_reverse.mpr h3
  rw [hd] at h4
  cases h4

lemma str_append_ne_empty_right (s t : String) (h : t.data ≠ []) : s ++ t ≠ "" := by
  intro he
  have hd : (s ++ t).data = ([] : List Char) := congrArg String.data he
  rw [str_data_append] at hd
  exact h (List.append_eq_nil.mp hd).2

lemma stripLit_append_self : ∀ (xs r : List Char), stripLit xs (xs ++ r) = some r
  | [], r => rfl
  | a :: as, r => by
    have h : stripLit (a :: as) ((a :: as) ++ r)
        = if a = a then stripLit as (as ++ r) else none := rfl
    rw [h, if_pos rfl, stripLit_append_self as r]

lemma matchRefTokenAt_canonical (r0 : Char) (rtl rest : List Char)
    (h0 : r0.isWhitespace = false) :
    matchRefTokenAt (r0 :: rtl)
      ("\x7b\x7b< embed ".data ++ ((r0 :: rtl) ++ (" >\x7d\x7d".data ++ rest)))
      = some rest := by
  have e1 : stripLit openChars
      ("\x7b\x7b< embed ".data ++ ((r0 :: rtl) ++ (" >\x7d\x7d".data ++ rest)))
      = some (' ' :: 'e' :: 'm' :: 'b' :: 'e' :: 'd' :: ' '
          :: ((r0 :: rtl) ++ (" >\x7d\x7d".data ++ rest))) := rfl
  have e2 : stripLit embedChars
      (List.dropWhile Char.isWhitespace (' ' :: 'e' :: 'm' :: 'b' :: 'e' :: 'd' :: ' '
          :: ((r0 :: rtl) ++ (" >\x7d\x7d".data ++ rest))))
      = some (' ' :: ((r0 :: rtl) ++ (" >\x7d\x7d".data ++ rest))) := rfl
  have e3 : List.dropWhile Char.isWhitespace ((r0 :: rtl) ++ (" >\x7d\x7d".data ++ rest))
      = r0 :: (rtl ++ (" >\x7d\x7d".data ++ rest)) := by
    rw [List.cons_append]
    exact List.dropWhile_cons_of_neg (by simp [h0])
  have e4 : stripLit (r0 :: rtl) (r0 :: (rtl ++ (" >\x7d\x7d".data ++ rest)))
      = some (" >\x7d\x7d".data ++ rest) := by
    rw [← List.cons_append]
    exact stripLit_append_self _ _
  have e5 : stripLit closeChars
      (List.dropWhile Char.isWhitespace (" >\x7d\x7d".data ++ rest)) = some rest := rfl
  simp only [matchRefTokenAt, e1, e2, e3, e4, e5]
  rfl

lemma takeWhile_nonws_space (l r : List Char)
    (hl : ∀ c ∈ l, ¬ c.isWhitespace) :
    (l ++ (' ' :: r)).takeWhile (fun ch => ¬ ch.isWhitespace) = l
    ∧ (l ++ (' ' :: r)).dropWhile (fun ch => ¬ ch.isWhitespace) = ' ' :: r := by
  induction l with
  | nil =>
    constructor
    · simp [List.takeWhile]
    · simp [List.dropWhile]
  | cons a as ih =>
    have ha : ¬ a.isWhitespace := hl a (List.mem_cons_self a as)
    have ih2 := ih (fun c hc => hl c (List.mem_cons_of_mem a hc))
    constructor
    · rw [List.cons_append]
      have hb : (a.isWhitespace : Bool) = false := by simpa using ha
      simp [List.takeWhile_cons, hb]
      simpa using ih2.1
    · rw [List.cons_append]
      rw [List.dropWhile_cons_of_pos (by simpa using ha)]
      exact ih2.2

lemma matchEmbedAt_canonical (r0 : Char) (rtl rest : List Char)
    (h0 : r0.isWhitespace = false)
    (hws : ∀ c ∈ rtl, ¬ c.isWhitespace) :
    matchEmbedAt ("\x7b\x7b< embed ".data ++ ((r0 :: rtl) ++ (" >\x7d\x7d".data ++ rest)))
      = some (r0 :: rtl, rest) := by
  have e1 : stripLit openChars
      ("\x7b\x7b< embed ".data ++ ((r0 :: rtl) ++ (" >\x7d\x7d".data ++ rest)))
      = some (' ' :: 'e' :: 'm' :: 'b' :: 'e' :: 'd' :: ' '
          :: ((r0 :: rtl) ++ (" >\x7d\x7d".data ++ rest))) := rfl
  have e2 : stripLit embedChars
      (List.dropWhile Char.isWhitespace (' ' :: 'e' :: 'm' :: 'b' :: 'e' :: 'd' :: ' '
          :: ((r0 :: rtl) ++ (" >\x7d\x7d".data ++ rest))))
      = some (' ' :: ((r0 :: rtl) ++ (" >\x7d\x7d".data ++ rest))) := rfl
  have hall : ∀ c ∈ r0 :: rtl, ¬ c.isWhitespace := by
    intro c hc
    rcases List.mem_cons.mp hc with h | h
    · subst h; simp [h0]
    · exact hws c h
  have e3 : List.dropWhile Char.isWhitespace ((r0 :: rtl) ++ (" >\x7d\x7d".data ++ rest))
      = (r0 :: rtl) ++ (' ' :: ('>' :: '\x7d' :: '\x7d' :: rest)) := by
    rw [List.cons_append]
    rw [List.dropWhile_cons_of_neg (by simp [h0])]
    rw [← List.cons_append]
    rfl
  have e4 := takeWhile_nonws_space (r0 :: rtl) ('>' :: '\x7d' :: '\x7d' :: rest) hall
  have e5 : refBacktrack (r0 :: rtl) (' ' :: ('>' :: '\x7d' :: '\x7d' :: rest))
      (rtl.length + 1) = some (r0 :: rtl, rest) := by
    simp only [refBacktrack]
    have hdrop : (r0 :: rtl).drop (rtl.length + 1) = [] := List.drop_length (r0 :: rtl)
    rw [hdrop]
    have htake : (r0 :: rtl).take (rtl.length + 1) = r0 :: rtl := List.take_length (r0 :: rtl)
    simp only [List.nil_append]
    rw [show List.dropWhile Char.isWhitespace (' ' :: ('>' :: '\x7d' :: '\x7d' :: rest))
        = '>' :: '\x7d' :: '\x7d' :: rest from rfl]
    rw [show stripLit closeChars ('>' :: '\x7d' :: '\x7d' :: rest) = some rest from rfl]
    rw [htake]
  simp only [matchEmbedAt, e1, e2, e3, e4.1, e4.2, List.length_cons]
  simpa using e5

lemma matchRefTokenAt_cons_none (ref : List Char) (c : Char) (l : List Char)
    (hc : c ≠ '\x7b') : matchRefTokenAt ref (c :: l) = none := by
  have e1 : stripLit openChars (c :: l) = none := by
    have h : stripLit openChars (c :: l)
        = if '\x7b' = c then stripLit ('\x7b' :: '<' :: []) l else none := rfl
    rw [h, if_neg (fun he => hc he.symm)]
  simp only [matchRefTokenAt, e1]

lemma matchEmbedAt_cons_none (c : Char) (l : List Char)
    (hc : c ≠ '\x7b') : matchEmbedAt (c :: l) = none := by
  have e1 : stripLit openChars (c :: l) = none := by
    have h : stripLit openChars (c :: l)
        = if '\x7b' = c then stripLit ('\x7b' :: '<' :: []) l else none := rfl
    rw [h, if_neg (fun he => hc he.symm)]
  simp only [matchEmbedAt, e1]

lemma substTmpl_nofind (ref : List Char) (items : List TmplItem) :
    ∀ (f : Nat) (l : List Char), '\x7b' ∉ l → substTmplFuel ref items f l = l := by
  intro f
  induction f with
  | zero => intro l _; cases l <;> rfl
  | succ f ih =>
    intro l hl
    cases l with
    | nil => rfl
    | cons c rest =>
      have hc : c ≠ '\x7b' := by intro h; exact hl (by simp [h])
      simp only [substTmplFuel, matchRefTokenAt_cons_none ref c rest hc]
      exact congrArg (c :: ·) (ih rest (fun h => hl (List.mem_cons_of_mem c h)))

lemma substTmpl_pass (ref : List Char) (items : List TmplItem) :
    ∀ (p : List Char), '\x7b' ∉ p → ∀ (f : Nat) (l : List Char),
      substTmplFuel ref items (p.length + f) (p ++ l)
        = p ++ substTmplFuel ref items f l := by
  intro p
  induction p with
  | nil => intro _ f l; simp
  | cons c p' ih =>
    intro hp f l
    have hc : c ≠ '\x7b' := by intro h; exact hp (by simp [h])
    have hlen : (c :: p').length + f = (p'.length + f) + 1 := by
      simp [List.length_cons]
      omega
    rw [List.cons_append, hlen]
    simp only [substTmplFuel, matchRefTokenAt_cons_none ref c (p' ++ l) hc]
    rw [ih (fun h => hp (List.mem_cons_of_mem c h)) f l]
    rw [List.cons_append]

lemma findEmbeds_nofind :
    ∀ (f : Nat) (l : List Char), '\x7b' ∉ l → findEmbedsFuel f l = [] := by
  intro f
  induction f with
  | zero => intro l _; cases l <;> rfl
  | succ f ih =>
    intro l hl
    cases l with
    | nil => rfl
    | cons c rest =>
      have hc : c ≠ '\x7b' := by intro h; exact hl (by simp [h])
      simp only [findEmbedsFuel, matchEmbedAt_cons_none c rest hc]
      exact ih rest (fun h => hl (List.mem_cons_of_mem c h))

lemma findEmbeds_pass :
    ∀ (p : List Char), '\x7b' ∉ p → ∀ (f : Nat) (l : List Char),
      findEmbedsFuel (p.length + f) (p ++ l) = findEmbedsFuel f l := by
  intro p
  induction p with
  | nil => intro _ f l; simp
  | cons c p' ih =>
    intro hp f l
    have hc : c ≠ '\x7b' := by intro h; exact hp (by simp [h])
    have hlen : (c :: p').length + f = (p'.length + f) + 1 := by
      simp [List.length_cons]
      omega
    rw [List.cons_append, hlen]
    simp only [findEmbedsFuel, matchEmbedAt_cons_none c (p' ++ l) hc]
    exact ih (fun h => hp (List.mem_cons_of_mem c h)) f l

lemma substTmpl_step (ref : List Char) (items : List TmplItem) (f : Nat)
    (l rem : List Char) (hne : l ≠ [])
    (h : matchRefTokenAt ref l = some rem) :
    substTmplFuel ref items (f + 1) l
      = applyTmpl items (l.take (l.length - rem.length))
          ++ substTmplFuel ref items f rem := by
  cases l with
  | nil => cases hne rfl
  | cons c rest => simp only [substTmplFuel, h]

lemma findEmbeds_step (f : Nat) (l ref rem : List Char) (hne : l ≠ [])
    (h : matchEmbedAt l = some (ref, rem)) :
    findEmbedsFuel (f + 1) l = ref :: findEmbedsFuel f rem := by
  cases l with
  | nil => cases hne rfl
  | cons c rest => simp only [findEmbedsFuel, h]

lemma parseTemplateFuel_lits :
    ∀ (l : List Char) (f : Nat), '\\' ∉ l →
      parseTemplateFuel (l.length + f) l = some (l.map TmplItem.lit) := by
  intro l
  induction l with
  | nil =>
    intro f _
    rw [show ([] : List Char).length + f = f by simp]
    cases f <;> rfl
  | cons c rest ih =>
    intro f hl
    have hc : c ≠ '\\' := by intro h; exact hl (by simp [h])
    have hlen : (c :: rest).length + f = (rest.length + f) + 1 := by
      simp [List.length_cons]
      omega
    rw [hlen]
    rw [parseTemplateFuel, if_neg hc]
    rw [ih f (fun h => hl (List.mem_cons_of_mem c h))]
    rfl

lemma parseTemplate_lits (l : List Char) (h : '\\' ∉ l) :
    parseTemplate l = some (l.map TmplItem.lit) := by
  have h2 := parseTemplateFuel_lits l 0 h
  rw [Nat.add_zero] at h2
  exact h2

lemma applyTmpl_lits : ∀ (l m : List Char), applyTmpl (l.map TmplItem.lit) m = l
  | [], _ => rfl
  | c :: rest, m => by
    simp only [List.map_cons, applyTmpl]
    rw [applyTmpl_lits rest m]

lemma substTmplFuel_lits (ref content : List Char) :
    ∀ (f : Nat) (l : List Char),
      substTmplFuel ref (content.map TmplItem.lit) f l = substFuel ref content f l := by
  intro f
  induction f with
  | zero => intro l; cases l <;> rfl
  | succ f ih =>
    intro l
    cases l with
    | nil => rfl
    | cons c rest =>
      cases h : matchRefTokenAt ref (c :: rest) with
      | none =>
        simp only [substTmplFuel, substFuel, h]
        rw [ih]
      | some rem =>
        simp only [substTmplFuel, substFuel, h, applyTmpl_lits]
        rw [ih]

lemma substEmbed_lit_agrees (ref content s : String) (h : '\\' ∉ content.data) :
    substEmbed ref content s = some (substEmbedLit ref content s) := by
  simp only [substEmbed, parseTemplate_lits content.data h, substEmbedLit,
    substTmplFuel_lits]

lemma mk_data (s : String) : String.mk s.data = s := rfl

lemma buildReps_foldl_unique (ref : String) (nb : NotebookOutput)
    (hemb : nb.embed = ref) :
    ∀ (nbs : List NotebookOutput) (acc : List (String × String)),
      (∀ x ∈ nbs, x.embed = ref → x = nb) →
      (acc = [] ∨ acc = [(ref, pyStrip (buildOutputText nb))]) →
      (nb ∈ nbs ∨ acc = [(ref, pyStrip (buildOutputText nb))]) →
      List.foldl (fun acc x => if x.embed ∈ [ref] then
          insertReplace x.embed (pyStrip (buildOutputText x)) acc else acc) acc nbs
        = [(ref, pyStrip (buildOutputText nb))] := by
  intro nbs
  induction nbs with
  | nil =>
    intro acc _ _ hmem
    rcases hmem with h | h
    · cases h
    · simpa using h
  | cons y ys ih =>
    intro acc huniq hacc hmem
    rw [List.foldl_cons]
    by_cases hy : y.embed ∈ [ref]
    · have hyref : y.embed = ref := List.mem_singleton.mp hy
      have hynb : y = nb := huniq y (List.mem_cons_self y ys) hyref
      rw [if_pos hy]
      have hins : insertReplace y.embed (pyStrip (buildOutputText y)) acc
          = [(ref, pyStrip (buildOutputText nb))] := by
        rw [hynb, hemb]
        rcases hacc with h | h
        · rw [h]
          rfl
        · rw [h]
          simp [insertReplace]
      rw [hins]
      exact ih _ (fun x hx h => huniq x (List.mem_cons_of_mem y hx) h)
        (Or.inr rfl) (Or.inr rfl)
    · rw [if_neg hy]
      refine ih acc (fun x hx h => huniq x (List.mem_cons_of_mem y hx) h) hacc ?_
      rcases hmem with h | h
      · rcases List.mem_cons.mp h with h2 | h2
        · exact absurd (by rw [← h2, hemb]; exact List.mem_singleton.mpr rfl) hy
        · exact Or.inl h2
      · exact Or.inr h

lemma buildReplacements_unique (nbs : List NotebookOutput) (nb : NotebookOutput)
    (ref : String) (hemb : nb.embed = ref) (hmem : nb ∈ nbs)
    (huniq : ∀ x ∈ nbs, x.embed = ref → x = nb) :
    buildReplacements nbs [ref] = [(ref, pyStrip (buildOutputText nb))] :=
  buildReps_foldl_unique ref nb hemb nbs [] huniq (Or.inl rfl) (Or.inl hmem)

lemma infix_head_or {c : Char} {tl : List Char} :
    ∀ (l₁ l₂ : List Char), (c :: tl) <:+: l₁ ++ l₂ → c ∈ l₁ ∨ (c :: tl) <:+: l₂ := by
  intro l₁
  induction l₁ with
  | nil =>
    intro l₂ h
    exact Or.inr (by simpa using h)
  | cons a l₁' ih =>
    intro l₂ h
    rw [List.cons_append] at h
    rcases List.infix_cons_iff.mp h with hpre | hinf
    · refine Or.inl ?_
      rw [(List.cons_prefix_cons.mp hpre).1]
      exact List.mem_cons_self a l₁'
    · rcases ih l₂ hinf with hc | hi
      · exact Or.inl (List.mem_cons_of_mem a hc)
      · exact Or.inr hi

lemma embedToken_data (ref : String) :
    (embedToken ref).data
      = "\x7b\x7b< embed ".data ++ (ref.data ++ " >\x7d\x7d".data) := by
  simp [embedToken, str_data_append, List.append_assoc]

lemma findEmbeds_canonical (ref pre post : String)
    (hrefne : ref.data ≠ []) (hrefws : ∀ c ∈ ref.data, ¬ c.isWhitespace)
    (hpre : '\x7b' ∉ pre.data) (hpost : '\x7b' ∉ post.data) :
    findEmbeds (pre ++ embedToken ref ++ post) = [ref] := by
  obtain ⟨r0, rtl, hr⟩ : ∃ r0 rtl, ref.data = r0 :: rtl := by
    cases hd : ref.data with
    | nil => exact absurd hd hrefne
    | cons a b => exact ⟨a, b, rfl⟩
  have h0 : r0.isWhitespace = false := by
    simpa using hrefws r0 (by rw [hr]; exact List.mem_cons_self _ _)
  have hws : ∀ c ∈ rtl, ¬ c.isWhitespace := by
    intro c hc
    exact hrefws c (by rw [hr]; exact List.mem_cons_of_mem r0 hc)
  have hdata : (pre ++ embedToken ref ++ post).data
      = pre.data
          ++ ("\x7b\x7b< embed ".data ++ ((r0 :: rtl) ++ (" >\x7d\x7d".data ++ post.data))) := by
    rw [str_data_append, str_data_append, embedToken_data, hr]
    simp [List.append_assoc]
  have hne : "\x7b\x7b< embed ".data ++ ((r0 :: rtl) ++ (" >\x7d\x7d".data ++ post.data))
      ≠ [] := by
    intro h
    exact absurd (List.append_eq_nil.mp h).1 (by decide)
  have hlq : ("\x7b\x7b< embed ".data ++ ((r0 :: rtl) ++ (" >\x7d\x7d".data ++ post.data))).length
      = (9 + ((r0 :: rtl) ++ (" >\x7d\x7d".data ++ post.data)).length) + 1 := by
    rw [List.length_append]
    rw [show ("\x7b\x7b< embed ".data).length = 10 from rfl]
    omega
  simp only [findEmbeds, findEmbedsList, hdata]
  rw [List.length_append]
  rw [findEmbeds_pass pre.data hpre]
  rw [hlq]
  rw [findEmbeds_step _ _ _ _ hne (matchEmbedAt_canonical r0 rtl post.data h0 hws)]
  rw [findEmbeds_nofind _ post.data hpost]
  rw [← hr]
  rfl

lemma substEmbed_canonical (ref pre post content : String) (items : List TmplItem)
    (hrefne : ref.data ≠ []) (hrefws : ∀ c ∈ ref.data, ¬ c.isWhitespace)
    (hpre : '\x7b' ∉ pre.data) (hpost : '\x7b' ∉ post.data)
    (hparse : parseTemplate content.data = some items) :
    substEmbed ref content (pre ++ embedToken ref ++ post)
      = some (pre ++ String.mk (applyTmpl items (embedToken ref).data) ++ post) := by
  obtain ⟨r0, rtl, hr⟩ : ∃ r0 rtl, ref.data = r0 :: rtl := by
    cases hd : ref.data with
    | nil => exact absurd hd hrefne
    | cons a b => exact ⟨a, b, rfl⟩
  have h0 : r0.isWhitespace = false := by
    simpa using hrefws r0 (by rw [hr]; exact List.mem_cons_self _ _)
  have hdata : (pre ++ embedToken ref ++ post).data
      = pre.data
          ++ ("\x7b\x7b< embed ".data ++ ((r0 :: rtl) ++ (" >\x7d\x7d".data ++ post.data))) := by
    rw [str_data_append, str_data_append, embedToken_data, hr]
    simp [List.append_assoc]
  have hne : "\x7b\x7b< embed ".data ++ ((r0 :: rtl) ++ (" >\x7d\x7d".data ++ post.data))
      ≠ [] := by
    intro h
    exact absurd (List.append_eq_nil.mp h).1 (by decide)
  have hlq : ("\x7b\x7b< embed ".data ++ ((r0 :: rtl) ++ (" >\x7d\x7d".data ++ post.data))).length
      = (9 + ((r0 :: rtl) ++ (" >\x7d\x7d".data ++ post.data)).length) + 1 := by
    rw [List.length_append]
    rw [show ("\x7b\x7b< embed ".data).length = 10 from rfl]
    omega
  have htake : ("\x7b\x7b< embed ".data ++ ((r0 :: rtl) ++ (" >\x7d\x7d".data ++ post.data))).take
      (("\x7b\x7b< embed ".data ++ ((r0 :: rtl) ++ (" >\x7d\x7d".data ++ post.data))).length
        - post.data.length)
      = (embedToken ref).data := by
    rw [show "\x7b\x7b< embed ".data ++ ((r0 :: rtl) ++ (" >\x7d\x7d".data ++ post.data))
        = ("\x7b\x7b< embed ".data ++ ((r0 :: rtl) ++ " >\x7d\x7d".data)) ++ post.data by
      simp [List.append_assoc]]
    rw [List.length_append, Nat.add_sub_cancel, List.take_left]
    rw [embedToken_data, hr]
  simp only [substEmbed, hparse]
  refine congrArg some (strEq_of_data ?_)
  show substTmplFuel ref.data items (pre ++ embedToken ref ++ post).data.length
      (pre ++ embedToken ref ++ post).data
    = (pre ++ String.mk (applyTmpl items (embedToken ref).data) ++ post).data
  rw [hdata, hr]
  rw [List.length_append]
  rw [substTmpl_pass (r0 :: rtl) items pre.data hpre]
  rw [hlq]
  rw [substTmpl_step (r0 :: rtl) items _ _ post.data hne
    (matchRefTokenAt_canonical r0 rtl post.data h0)]
  rw [htake]
  rw [substTmpl_nofind (r0 :: rtl) items _ post.data hpost]
  rw [str_data_append, str_data_append]
  rw [show (String.mk (applyTmpl items (embedToken ref).data)).data
      = applyTmpl items (embedToken ref).data from rfl]
  simp [List.append_assoc]

lemma augmentExc_setup (rc : String) (nbs : List NotebookOutput) (nb : NotebookOutput)
    (ref pre post : String)
    (hrefne : ref.data ≠ []) (hrefws : ∀ c ∈ ref.data, ¬ c.isWhitespace)
    (hpre : '\x7b' ∉ pre.data) (hpost : '\x7b' ∉ post.data)
    (hemb : nb.embed = ref) (hmem : nb ∈ nbs)
    (huniq : ∀ x ∈ nbs, x.embed = ref → x = nb) :
    augment_with_notebook_outputs_exc ⟨rc, nbs⟩ (pre ++ embedToken ref ++ post)
      = substEmbed ref (pyStrip (buildOutputText nb)) (pre ++ embedToken ref ++ post) := by
  cases nbs with
  | nil => cases hmem
  | cons n ns =>
    have h1 := findEmbeds_canonical ref pre post hrefne hrefws hpre hpost
    have h2 := buildReplacements_unique (n :: ns) nb ref hemb hmem huniq
    simp only [augment_with_notebook_outputs_exc, h1, h2]
    cases hs : substEmbed ref (pyStrip (buildOutputText nb)) (pre ++ embedToken ref ++ post) with
    | none => simp [List.foldlM, hs]
    | some v => simp [List.foldlM, hs]


set_option maxRecDepth 8000 in
/-- C4 as stated is false for backslash-bearing content: the stripped
output content is passed to re.sub as a replacement template, so a latex
block containing "\\sum" makes the substitution raise re.error (modelled
as none) although the text contains the embed token of a matching
NotebookOutput, and a template such as "\\frac\x7bn\x7d\x7b2\x7d" is rewritten to a
form-feed character followed by the rest instead of being kept literally. -/
theorem c4_embed_substitution_counterexample :
    findEmbeds ("See " ++ embedToken "fig1" ++ " here") = ["fig1"]
    ∧ augment_with_notebook_outputs_exc
        ⟨"", [⟨"fig1", "eq", [], [], [], ["\\sum_i x_i"]⟩]⟩
        ("See " ++ embedToken "fig1" ++ " here") = none
    ∧ parseTemplate "\\frac\x7bn\x7d\x7b2\x7d".data
        = some ([TmplItem.lit (Char.ofNat 12)] ++ "rac\x7bn\x7d\x7b2\x7d".data.map TmplItem.lit) := by
  decide


set_option maxRecDepth 8000 in
/-- C4: for every extracted text decomposing as pre ++ token ++ post around
the embed token of the unique matching NotebookOutput of the report (the
surrounding text free of braces, so the token is the one embed shortcode),
embed substitution: (i) replaces the token by the stripped output content
processed as a re.sub replacement template whenever that template parses;
(ii) in particular, a backslash-free content replaces the token literally,
so the result is pre ++ content ++ post; (iii) raises re.error (modelled as
none) when the template does not parse; (iv) the literal token no longer
occurs in the result whenever the processed replacement itself does not
contain it; (v) a NotebookOutput without textual outputs is replaced by the
non-empty figure placeholder derived from its cell id; (vi) the content
concatenates the outputs in the priority order html_as_markdown, markdown,
fenced text, latex (shown explicitly for one block of each kind); and
(vii)-(viii) template parsing follows Python re.sub semantics on
backslashes: a content such as "\sum" raises, and "\frac" is rewritten to a
form-feed character followed by "rac" rather than kept literally. -/
theorem c4_embed_substitution (rc : String) (nbs : List NotebookOutput)
    (nb : NotebookOutput) (ref pre post : String)
    (hrefne : ref.data ≠ []) (hrefws : ∀ c ∈ ref.data, ¬ c.isWhitespace)
    (hpre : '\x7b' ∉ pre.data) (hpostb : '\x7b' ∉ post.data)
    (hpostc : '\x7d' ∉ post.data)
    (hmem : nb ∈ nbs) (hemb : nb.embed = ref)
    (huniq : ∀ x ∈ nbs, x.embed = ref → x = nb) :
    (∀ items, parseTemplate (pyStrip (buildOutputText nb)).data = some items →
        augment_with_notebook_outputs_exc ⟨rc, nbs⟩ (pre ++ embedToken ref ++ post)
          = some (pre ++ String.mk (applyTmpl items (embedToken ref).data) ++ post))
    ∧ ('\\' ∉ (pyStrip (buildOutputText nb)).data →
        augment_with_notebook_outputs_exc ⟨rc, nbs⟩ (pre ++ embedToken ref ++ post)
          = some (pre ++ pyStrip (buildOutputText nb) ++ post))
    ∧ (parseTemplate (pyStrip (buildOutputText nb)).data = none →
        augment_with_notebook_outputs_exc ⟨rc, nbs⟩ (pre ++ embedToken ref ++ post) = none)
    ∧ (∀ items r, parseTemplate (pyStrip (buildOutputText nb)).data = some items →
        ¬ ((embedToken ref).data <:+: applyTmpl items (embedToken ref).data) →
        augment_with_notebook_outputs_exc ⟨rc, nbs⟩ (pre ++ embedToken ref ++ post) = some r →
        ¬ ((embedToken ref).data <:+: r.data))
    ∧ (nb.html_as_markdown = [] → nb.markdown = [] → nb.text = [] → nb.latex = [] →
        buildOutputText nb = figPlaceholder nb.cell_id
        ∧ pyStrip (figPlaceholder nb.cell_id) ≠ "")
    ∧ (∀ cid s1 s2 s3 s4 : String,
        buildOutputText ⟨ref, cid, [s1], [s2], [s3], [s4]⟩
          = embHeader cid ++ s1 ++ "\n\n" ++ s2 ++ "\n\n"
              ++ "```\n" ++ s3 ++ "\n```" ++ "\n\n" ++ s4 ++ "\n\n")
    ∧ parseTemplate "\\sum".data = none
    ∧ parseTemplate "\\frac".data
        = some [TmplItem.lit (Char.ofNat 12), TmplItem.lit 'r',
            TmplItem.lit 'a', TmplItem.lit 'c'] := by
  have hsetup := augmentExc_setup rc nbs nb ref pre post hrefne hrefws hpre hpostb
    hemb hmem huniq
  have hmain : ∀ items, parseTemplate (pyStrip (buildOutputText nb)).data = some items →
      augment_with_notebook_outputs_exc ⟨rc, nbs⟩ (pre ++ embedToken ref ++ post)
        = some (pre ++ String.mk (applyTmpl items (embedToken ref).data) ++ post) := by
    intro items hp
    rw [hsetup, substEmbed_canonical ref pre post _ items hrefne hrefws hpre hpostb hp]
  refine ⟨hmain, ?_, ?_, ?_, ?_, ?_, by decide, by decide⟩
  · intro hbs
    have hp := parseTemplate_lits _ hbs
    rw [hmain _ hp, applyTmpl_lits, mk_data]
  · intro hp
    rw [hsetup]
    simp only [substEmbed, hp]
  · intro items r hp hni hsome
    rw [hmain items hp] at hsome
    have hreq : r = pre ++ String.mk (applyTmpl items (embedToken ref).data) ++ post :=
      (Option.some.inj hsome).symm
    intro hinf
    have hdataR : r.data
        = pre.data ++ ((applyTmpl items (embedToken ref).data) ++ post.data) := by
      rw [hreq, str_data_append, str_data_append]
      simp [List.append_assoc]
    rw [hdataR] at hinf
    have htok : (embedToken ref).data
        = '\x7b' :: ("\x7b< embed ".data ++ (ref.data ++ " >\x7d\x7d".data)) := by
      rw [embedToken_data]
      rfl
    rw [htok] at hinf
    rcases infix_head_or pre.data _ hinf with hc | hinf2
    · exact hpre hc
    · rw [← htok] at hinf2
      have hinf3 := List.reverse_infix.mpr hinf2
      rw [List.reverse_append] at hinf3
      have htokrev : ((embedToken ref).data).reverse
          = '\x7d' :: ('\x7d' :: ('>' :: (' ' :: (ref.data.reverse
              ++ ("\x7b\x7b< embed ".data).reverse)))) := by
        rw [embedToken_data]
        simp [List.reverse_append]
      rw [htokrev] at hinf3
      rcases infix_head_or post.data.reverse _ hinf3 with hc | hinf4
      · exact hpostc (List.mem_reverse.mp hc)
      · rw [← htokrev] at hinf4
        exact hni (List.reverse_infix.mp hinf4)
  · intro h1 h2 h3 h4
    have hbuild : buildOutputText nb = figPlaceholder nb.cell_id := by
      cases nb with
      | mk em cid hm md tx lx =>
        have e1 : hm = [] := h1
        have e2 : md = [] := h2
        have e3 : tx = [] := h3
        have e4 : lx = [] := h4
        subst e1; subst e2; subst e3; subst e4
        simp [buildOutputText, appendSection]
    refine ⟨hbuild, ?_⟩
    have hstar : ('*' : Char) ∈ (figPlaceholder nb.cell_id).data := by
      rw [show figPlaceholder nb.cell_id
          = "\n**[Figure: " ++ pythonTitle (underscoreToSpace nb.cell_id) ++ "]**\n" from rfl,
        str_data_append, str_data_append]
      exact List.mem_append.mpr (Or.inl (List.mem_append.mpr (Or.inl (by decide))))
    exact pyStrip_ne_empty hstar (by decide)
  · intro cid s1 s2 s3 s4
    have e1 : appendSection "" cid [s1] (fun b => b)
        = embHeader cid ++ s1 ++ "\n\n" := by
      simp [appendSection]
    have hne1 : embHeader cid ++ s1 ++ "\n\n" ≠ "" :=
      str_append_ne_empty_right _ "\n\n" (by decide)
    have e2 : appendSection (embHeader cid ++ s1 ++ "\n\n") cid [s2] (fun b => b)
        = embHeader cid ++ s1 ++ "\n\n" ++ s2 ++ "\n\n" := by
      simp [appendSection, hne1]
    have hne2 : embHeader cid ++ s1 ++ "\n\n" ++ s2 ++ "\n\n" ≠ "" :=
      str_append_ne_empty_right _ "\n\n" (by decide)
    have e3 : appendSection (embHeader cid ++ s1 ++ "\n\n" ++ s2 ++ "\n\n") cid [s3]
        (fun b => "```\n" ++ b ++ "\n```")
        = embHeader cid ++ s1 ++ "\n\n" ++ s2 ++ "\n\n"
            ++ ("```\n" ++ s3 ++ "\n```") ++ "\n\n" := by
      simp [appendSection, hne2]
    have hne3 : embHeader cid ++ s1 ++ "\n\n" ++ s2 ++ "\n\n"
        ++ ("```\n" ++ s3 ++ "\n```") ++ "\n\n" ≠ "" :=
      str_append_ne_empty_right _ "\n\n" (by decide)
    have e4 : appendSection (embHeader cid ++ s1 ++ "\n\n" ++ s2 ++ "\n\n"
          ++ ("```\n" ++ s3 ++ "\n```") ++ "\n\n") cid [s4] (fun b => b)
        = embHeader cid ++ s1 ++ "\n\n" ++ s2 ++ "\n\n"
            ++ ("```\n" ++ s3 ++ "\n```") ++ "\n\n" ++ s4 ++ "\n\n" := by
      simp [appendSection, hne3]
    have hne4 : embHeader cid ++ s1 ++ "\n\n" ++ s2 ++ "\n\n"
        ++ ("```\n" ++ s3 ++ "\n```") ++ "\n\n" ++ s4 ++ "\n\n" ≠ "" :=
      str_append_ne_empty_right _ "\n\n" (by decide)
    have hb : buildOutputText ⟨ref, cid, [s1], [s2], [s3], [s4]⟩
        = embHeader cid ++ s1 ++ "\n\n" ++ s2 ++ "\n\n"
            ++ ("```\n" ++ s3 ++ "\n```") ++ "\n\n" ++ s4 ++ "\n\n" := by
      simp only [buildOutputText]
      rw [e1, e2, e3, e4, if_neg hne4]
    rw [hb]
    apply strEq_of_data
    simp [str_data_append, List.append_assoc]


set_option maxRecDepth 8000 in
/-- Witness for C4: a text-bearing NotebookOutput (one fenced text block,
backslash-free) substituted into a concrete text through the
exception-aware embedding. -/
theorem c4_embed_substitution_witness :
    augment_with_notebook_outputs_exc ⟨"", [⟨"fig1", "raw_data", [], [], ["42"], []⟩]⟩
        ("Results: " ++ embedToken "fig1" ++ " done")
      = some ("Results: "
          ++ pyStrip (buildOutputText ⟨"fig1", "raw_data", [], [], ["42"], []⟩)
          ++ " done") :=
  (c4_embed_substitution "" [⟨"fig1", "raw_data", [], [], ["42"], []⟩]
      ⟨"fig1", "raw_data", [], [], ["42"], []⟩ "fig1" "Results: " " done"
      (by decide) (by decide) (by decide) (by decide) (by decide)
      (List.mem_singleton.mpr rfl) rfl
      (fun x hx _ => List.mem_singleton.mp hx)).2.1 (by decide)

lemma augment_of_no_embeds (report : Report) (t : String)
    (h : findEmbeds t = []) : augment_with_notebook_outputs report t = t := by
  unfold augment_with_notebook_outputs
  rw [h]

/-- C5 as stated is false: a report under 500 characters whose content
contains an embed token with a matching NotebookOutput is not returned
verbatim — embed substitution still rewrites it. -/
theorem c5_short_not_verbatim_counterexample :
    shortEmbedReport.content.length < 500
    ∧ (extract_sections_for_criterion_ai shortEmbedReport ⟨"c1", "Analysis"⟩ ⟨false, []⟩
        (Except.ok "LLMTEXT") (fun _ => [])).1 ≠ shortEmbedReport.content := by
  exact ⟨by decide, by decide⟩

/-- C5 (amended): for content under 500 characters the extractor bypasses
the LLM call (the result does not depend on the LLM outcome) and returns
the content with only embed substitution applied — verbatim when the
content contains no embed token — and the image list is empty unless the
vision gate matches. -/
theorem c5_short_content_bypass (report : Report) (criterion : Criterion)
    (vc : VisionConfig) (api api2 : Except String String)
    (imgSel : String → List String) (hshort : report.content.length < 500) :
    (extract_sections_for_criterion_ai report criterion vc api imgSel).1
        = augment_with_notebook_outputs report report.content
    ∧ extract_sections_for_criterion_ai report criterion vc api imgSel
        = extract_sections_for_criterion_ai report criterion vc api2 imgSel
    ∧ (findEmbeds report.content = [] →
        (extract_sections_for_criterion_ai report criterion vc api imgSel).1
          = report.content)
    ∧ (vc.enabled = false ∨ vision_enabled_for vc criterion = false →
        (extract_sections_for_criterion_ai report criterion vc api imgSel).2 = []) := by
  refine ⟨?_, ?_, ?_, ?_⟩
  · simp [extract_sections_for_criterion_ai, hshort]
  · simp [extract_sections_for_criterion_ai, hshort]
  · intro hne
    simp [extract_sections_for_criterion_ai, hshort, augment_of_no_embeds report _ hne]
  · intro hgate
    rcases hgate with hg | hg
    · simp [extract_sections_for_criterion_ai, hg]
    · simp [extract_sections_for_criterion_ai, hg]

/-- Witness for C5 (amended) on a tiny report. -/
theorem c5_short_content_bypass_witness :
    (extract_sections_for_criterion_ai tinyReport ⟨"c1", "Analysis"⟩ ⟨false, []⟩
        (Except.ok "X") (fun _ => [])).1
      = augment_with_notebook_outputs tinyReport tinyReport.content :=
  (c5_short_content_bypass tinyReport ⟨"c1", "Analysis"⟩ ⟨false, []⟩ (Except.ok "X")
    (Except.error "down") (fun _ => []) (by decide)).1

/-- C6: image selection runs iff the global vision flag is enabled and
the enabled-criteria list contains '*', the criterion id, or the
criterion name (a non-match yields the empty image list, a silent
no-op); with '*' enabled the gate holds for every criterion. -/
theorem c6_vision_gate (report : Report) (criterion : Criterion) (vc : VisionConfig)
    (api : Except String String) (imgSel : String → List String) :
    ((extract_sections_for_criterion_ai report criterion vc api imgSel).2
      = if vc.enabled = true
            ∧ ("*" ∈ vc.enabled_for_criteria ∨ criterion.id ∈ vc.enabled_for_criteria
              ∨ criterion.name ∈ vc.enabled_for_criteria)
        then imgSel (extract_sections_for_criterion_ai report criterion vc api imgSel).1
        else [])
    ∧ (∀ c2 : Criterion, vc.enabled = true → "*" ∈ vc.enabled_for_criteria →
        vision_enabled_for vc c2 = true) := by
  constructor
  · by_cases he : vc.enabled = true
    · by_cases hg : ("*" ∈ vc.enabled_for_criteria ∨ criterion.id ∈ vc.enabled_for_criteria
          ∨ criterion.name ∈ vc.enabled_for_criteria)
      · rw [if_pos ⟨he, hg⟩]
        have hv : vision_enabled_for vc criterion = true := by
          simp only [vision_enabled_for, Bool.or_eq_true, decide_eq_true_eq]
          tauto
        simp [extract_sections_for_criterion_ai, he, hv]
      · rw [if_neg (by tauto)]
        have hv : vision_enabled_for vc criterion = false := by
          simp only [vision_enabled_for, Bool.or_eq_false_iff, decide_eq_false_iff_not]
          tauto
        simp [extract_sections_for_criterion_ai, he, hv]
    · rw [if_neg (by tauto)]
      have he' : vc.enabled = false := by
        cases hvc : vc.enabled
        · rfl
        · exact absurd hvc he
      simp [extract_sections_for_criterion_ai, he']
  · intro c2 he hstar
    simp only [vision_enabled_for, Bool.or_eq_true, decide_eq_true_eq]
    tauto

/-- Witness for C6: vision enabled with the '*' wildcard selects images
for an arbitrary criterion. -/
theorem c6_vision_gate_witness :
    (extract_sections_for_criterion_ai tinyReport ⟨"anything", "Whatever"⟩ ⟨true, ["*"]⟩
        (Except.ok "X") (fun _ => ["img.png"])).2
      = if (true = true)
            ∧ ("*" ∈ ["*"] ∨ "anything" ∈ ["*"] ∨ "Whatever" ∈ ["*"])
        then (fun _ => ["img.png"])
          ((extract_sections_for_criterion_ai tinyReport ⟨"anything", "Whatever"⟩
            ⟨true, ["*"]⟩ (Except.ok "X") (fun _ => ["img.png"])).1)
        else [] :=
  (c6_vision_gate tinyReport ⟨"anything", "Whatever"⟩ ⟨true, ["*"]⟩ (Except.ok "X")
    (fun _ => ["img.png"])).1

set_option maxRecDepth 10000 in
/-- C7 as stated is false: when the extraction call fails, the fallback
text still undergoes embed substitution, so for content whose first 8000
characters contain an embed token with a matching NotebookOutput the
returned text differs from the raw truncation. -/
theorem c7_fallback_not_verbatim_counterexample :
    500 ≤ longEmbedReport.content.length
    ∧ (extract_sections_for_criterion_ai longEmbedReport ⟨"c1", "Analysis"⟩ ⟨false, []⟩
        (Except.error "network error") (fun _ => [])).1
      ≠ pySlice longEmbedReport.content 8000 := by
  exact ⟨by decide, by decide⟩

/-- C7 (amended): when the extraction LLM call fails with any exception,
the extractor still returns normally, with its text equal to the first
8000 characters of the raw content with embed substitution applied —
equal to the raw truncation itself when it contains no embed token. -/
theorem c7_extraction_fallback (report : Report) (criterion : Criterion)
    (vc : VisionConfig) (e : String) (imgSel : String → List String)
    (hlong : ¬ report.content.length < 500) :
    (extract_sections_for_criterion_ai report criterion vc (Except.error e) imgSel).1
        = augment_with_notebook_outputs report (pySlice report.content 8000)
    ∧ (findEmbeds (pySlice report.content 8000) = [] →
        (extract_sections_for_criterion_ai report criterion vc (Except.error e) imgSel).1
          = pySlice report.content 8000) := by
  constructor
  · simp [extract_sections_for_criterion_ai, hlong]
  · intro hne
    simp [extract_sections_for_criterion_ai, hlong, augment_of_no_embeds report _ hne]

set_option maxRecDepth 10000 in
/-- Witness for C7 (amended) on a 500-character report. -/
theorem c7_extraction_fallback_witness :
    (extract_sections_for_criterion_ai plainLongReport ⟨"c1", "Analysis"⟩ ⟨false, []⟩
        (Except.error "boom") (fun _ => [])).1
      = augment_with_notebook_outputs plainLongReport (pySlice plainLongReport.content 8000) :=
  (c7_extraction_fallback plainLongReport ⟨"c1", "Analysis"⟩ ⟨false, []⟩ "boom"
    (fun _ => []) (by decide)).1

/-- C8: when the grading call for a criterion fails with any exception,
`analyze_criterion` returns a result with success false whose feedback
embeds the error message; the combined output of the main loop has
exactly one entry per rubric criterion, in rubric order, and a failed
criterion's result is present rather than omitted. -/
theorem c8_criterion_error_isolation (call : Criterion → Except String GradingOutcome)
    (criteria : List Criterion) (c : Criterion) (e : String)
    (herr : call c = Except.error e) :
    (analyze_criterion call c).success = false
    ∧ (analyze_criterion call c).feedback = "Error analyzing this criterion: " ++ e
    ∧ (run_all_criteria call criteria).length = criteria.length
    ∧ (run_all_criteria call criteria).map CriterionResult.criterion
        = criteria.map Criterion.name
    ∧ (c ∈ criteria → analyze_criterion call c ∈ run_all_criteria call criteria) := by
  refine ⟨?_, ?_, ?_, ?_, ?_⟩
  · simp [analyze_criterion, herr]
  · simp [analyze_criterion, herr]
  · simp [run_all_criteria]
  · rw [run_all_criteria, List.map_map]
    refine List.map_congr_left ?_
    intro x _
    cases hx : call x <;> simp [Function.comp, analyze_criterion, hx]
  · intro hc
    exact List.mem_map_of_mem _ hc

/-- Witness for C8: a concrete two-criterion rubric whose second
criterion's grading call fails. -/
theorem c8_criterion_error_isolation_witness :
    (analyze_criterion callC8 ⟨"c2", "Results"⟩).success = false
    ∧ (analyze_criterion callC8 ⟨"c2", "Results"⟩).feedback
        = "Error analyzing this criterion: " ++ "rate limited"
    ∧ (run_all_criteria callC8 criteriaC8).length = criteriaC8.length :=
  have h := c8_criterion_error_isolation callC8 criteriaC8 ⟨"c2", "Results"⟩
    "rate limited" rfl
  ⟨h.1, h.2.1, h.2.2.1⟩

end AIF
